import Mathlib

/-!
Verification development for the enum code generator in
`src/google/protobuf/compiler/c/c_enum.cc`.

The C++ source is shallowly embedded below.  An `EnumDescriptor` carries the
full dotted name, the short name, the owning package and the ordered list of
values; an `EnumGenerator` pairs a descriptor with the `dllexport_decl_`
string, mirroring the C++ class.  The `io::Printer` collaborator is embedded
as a `Printer` state (current indentation plus accumulated output); each
`printer->Print(vars, "...")` call of the source is transliterated into a
list of template lines, where every line is a list of tokens (literal text or
a `$var$` reference resolved against the variable map).

The identifier helpers (`FullNameToC`, `FullNameToUpper`, `FullNameToLower`,
`ToUpper`, `SimpleItoa`) live in `c_helpers.cc`, which is not part of the
sources; they are modelled from the spec where indicated.
-/

structure EnumValue where
  name : String
  number : Int
deriving Inhabited, DecidableEq, Repr

structure EnumDescriptor where
  fullName : String
  name : String
  packageName : String
  values : List EnumValue
deriving Inhabited, DecidableEq, Repr

/-- Embeds the C++ `EnumGenerator` class: the constructor stores the
descriptor and the `dllexport_decl` string (c_enum.cc lines 35-39). -/
structure EnumGenerator where
  descriptor : EnumDescriptor
  dllexport_decl : String
deriving Inhabited, DecidableEq, Repr

/-- Modelled from the spec: `UpperValueSuffix(valueName)` "upper-cases a
single value's symbolic name for constant-name composition" (§4.1); this is
the `ToUpper` helper of `c_helpers.cc`, which is not among the sources. -/
def ToUpper (s : String) : String :=
  ⟨s.data.map Char.toUpper⟩

/-- Character transcription for `FullNameToUpper`: each dotted-name
separator becomes a double underscore, every other character is
upper-cased. -/
def upperSnakeChars : List Char → List Char
  | [] => []
  | c :: cs =>
    if c = '.' then '_' :: '_' :: upperSnakeChars cs
    else c.toUpper :: upperSnakeChars cs

/-- Modelled from the spec: upper-snake-case spelling of a dotted full name
(§4.1, the body of `ConstantPrefix` before its trailing separator); this is
the `FullNameToUpper` helper of `c_helpers.cc`, which is not among the
sources. -/
def FullNameToUpper (s : String) : String :=
  ⟨upperSnakeChars s.data⟩

/-- Character transcription for `FullNameToLower`: each dotted-name
separator becomes a double underscore, every other character is
lower-cased. -/
def lowerSnakeChars : List Char → List Char
  | [] => []
  | c :: cs =>
    if c = '.' then '_' :: '_' :: lowerSnakeChars cs
    else c.toLower :: lowerSnakeChars cs

/-- Modelled from the spec: `LowerAccessorName(fullName)` is the "lowercase,
separator-joined form used as the base identifier for generated
table/descriptor symbols" (§4.1); this is the `FullNameToLower` helper of
`c_helpers.cc`, which is not among the sources. -/
def FullNameToLower (s : String) : String :=
  ⟨lowerSnakeChars s.data⟩

/-- Character transcription for `FullNameToC`: segment-initial characters
are capitalized, each dotted-name separator becomes a double underscore.
The Boolean flag says whether the next character starts a segment. -/
def camelSegChars : Bool → List Char → List Char
  | _, [] => []
  | atStart, c :: cs =>
    if c = '.' then '_' :: '_' :: camelSegChars true cs
    else (if atStart then c.toUpper else c) :: camelSegChars false cs

/-- Modelled from the spec: `TypeIdentifier(fullName)` "maps dotted-name
segments to a single camel/merged identifier suitable as a type name"
(§4.1); this is the `FullNameToC` helper of `c_helpers.cc`, which is not
among the sources. -/
def FullNameToC (s : String) : String :=
  ⟨camelSegChars true s.data⟩

/-- Modelled from the spec: decimal rendering of an integer; this is the
`SimpleItoa` helper used by the source, not among the sources. -/
def SimpleItoa (i : Int) : String :=
  toString i

/-- Spec name (§4.1) for the constant-name prefix; the source builds it as
`FullNameToUpper(descriptor_->full_name()) + "__"` (c_enum.cc lines 58,
103). -/
def ConstantPrefixOf (fullName : String) : String :=
  FullNameToUpper fullName ++ "__"

/-- Spec name (§4.1) for the per-value constant suffix. -/
def UpperValueSuffix (valueName : String) : String :=
  ToUpper valueName

/-- Spec name (§4.1) for the lowercase accessor identifier. -/
def LowerAccessorName (fullName : String) : String :=
  FullNameToLower fullName

/-- One token of a `Print` template: literal text, or a `$key$` variable
reference. -/
inductive Tok where
  | lit (s : String)
  | var (k : String)
deriving DecidableEq, Repr

/-- The variable map handed to `printer->Print`; assignment conses the new
binding in front, and `lookupVar` finds the most recent one, matching the
`map<string,string>` subscript-assignment semantics of the source. -/
def setVar (vars : List (String × String)) (k v : String) :
    List (String × String) :=
  (k, v) :: vars

def lookupVar (vars : List (String × String)) (k : String) : String :=
  (vars.lookup k).getD ""

/-- Renders one template line by substituting each `$key$` reference. -/
def renderToks (vars : List (String × String)) : List Tok → String
  | [] => ""
  | Tok.lit s :: ts => s ++ renderToks vars ts
  | Tok.var k :: ts => lookupVar vars k ++ renderToks vars ts

/-- Embedding of `io::Printer`: indentation depth and the output written so
far. -/
structure Printer where
  indent : Nat
  out : String
deriving DecidableEq, Repr

def emptyPrinter : Printer :=
  ⟨0, ""⟩

/-- Concatenation of a list of output fragments. -/
def concatList : List String → String
  | [] => ""
  | s :: ss => s ++ concatList ss

/-- Indentation text: `Printer::Indent` adds two spaces per level. -/
def indentStr (n : Nat) : String :=
  concatList (List.replicate n "  ")

/-- Writes one template line: the indentation, the substituted tokens, and
the terminating newline.  Every `Print` call in c_enum.cc begins at the
start of a line and its template ends in a newline, so a call printing a
multi-line template is embedded as one `printLine` per template line. -/
def Printer.printLine (p : Printer) (vars : List (String × String))
    (ts : List Tok) : Printer :=
  ⟨p.indent, p.out ++ (indentStr p.indent ++ renderToks vars ts ++ "\n")⟩

def Printer.indentInc (p : Printer) : Printer :=
  ⟨p.indent + 1, p.out⟩

def Printer.indentDec (p : Printer) : Printer :=
  ⟨p.indent - 1, p.out⟩

/-- Variables set at the top of `GenerateDefinition` (c_enum.cc lines
44-46). -/
def definitionVars (d : EnumDescriptor) : List (String × String) :=
  setVar (setVar [] "classname" (FullNameToC d.fullName)) "shortname" d.name

/-- Variables in scope when the loop body of `GenerateDefinition` prints one
member (c_enum.cc lines 56-58).  The C++ code mutates one `map`; rebuilding
it from `definitionVars` is lookup-equivalent because the three keys are
overwritten on every iteration. -/
def memberVars (d : EnumDescriptor) (v : EnumValue) :
    List (String × String) :=
  setVar
    (setVar (setVar (definitionVars d) "name" v.name)
      "number" (SimpleItoa v.number))
    "prefix" (FullNameToUpper d.fullName ++ "__")

/-- Tokens of the member template `"$prefix$$name$ = $number$,\n"`
(c_enum.cc line 60). -/
def memberToks : List Tok :=
  [Tok.var "prefix", Tok.var "name", Tok.lit " = ", Tok.var "number",
   Tok.lit ","]

/-- The text appended for one enum member at indentation depth `ind`; this
is exactly what the loop body of `GenerateDefinition` writes for `v`. -/
def memberLineOut (d : EnumDescriptor) (ind : Nat) (v : EnumValue) :
    String :=
  indentStr ind ++ renderToks (memberVars d v) memberToks ++ "\n"

/-- The min/max scan of c_enum.cc lines 51-67: `min_value`/`max_value` start
at `value(0)` and are updated while the members are printed.  The results
are unused by the emitted text; with an empty value list the C++ code takes
the address `value(0)` but never dereferences it, embedded here as `none`. -/
def minMaxScan : List EnumValue → Option (EnumValue × EnumValue)
  | [] => none
  | v :: vs =>
    some (vs.foldl
      (fun mm w =>
        let mm1 := if w.number < mm.1.number then (w, mm.2) else mm
        if w.number > mm1.2.number then (mm1.1, w) else mm1)
      (v, v))

/-- Embedding of `EnumGenerator::GenerateDefinition` (c_enum.cc lines
43-72). -/
def EnumGenerator.GenerateDefinition (g : EnumGenerator) (p : Printer) :
    Printer :=
  let d := g.descriptor
  let vars := definitionVars d
  let p := p.printLine vars
    [Tok.lit "typedef enum _", Tok.var "classname", Tok.lit " \x7b"]
  let p := p.indentInc
  let _minmax := minMaxScan d.values
  let p := d.values.foldl
    (fun q v => q.printLine (memberVars d v) memberToks) p
  let p := p.indentDec
  p.printLine vars [Tok.lit "\x7d ", Tok.var "classname", Tok.lit ";"]

/-- Embedding of `EnumGenerator::GenerateDescriptorDeclarations` (c_enum.cc
lines 74-86). -/
def EnumGenerator.GenerateDescriptorDeclarations (g : EnumGenerator)
    (p : Printer) : Printer :=
  let d := g.descriptor
  let vars :=
    setVar
      (setVar
        (setVar [] "dllexport"
          (if g.dllexport_decl.isEmpty then ""
           else g.dllexport_decl ++ " "))
        "classname" (FullNameToC d.fullName))
      "lcclassname" (FullNameToLower d.fullName)
  p.printLine vars
    [Tok.lit "extern ", Tok.var "dllexport",
     Tok.lit "const ProtobufCEnumDescriptor    ", Tok.var "lcclassname",
     Tok.lit "__descriptor;"]

/-- Embedding of the C++ `NameIndex` record (c_enum.cc lines 88-92). -/
structure NameIndex where
  name : String
  index : Nat
deriving Inhabited, DecidableEq, Repr

/-- Embedding of the C++ `ValueIndex` record (c_enum.cc lines 93-97). -/
structure ValueIndex where
  value : Int
  index : Nat
deriving Inhabited, DecidableEq, Repr

/-- The fill loop of c_enum.cc lines 139-145, `name_index` part: entry `j`
pairs the value's name with its declaration index. -/
def nameIndexListAux : Nat → List EnumValue → List NameIndex
  | _, [] => []
  | i, v :: vs => ⟨v.name, i⟩ :: nameIndexListAux (i + 1) vs

def nameIndexList (d : EnumDescriptor) : List NameIndex :=
  nameIndexListAux 0 d.values

/-- The fill loop of c_enum.cc lines 139-145, `value_index` part: entry `j`
pairs the value's number with its declaration index. -/
def valueIndexListAux : Nat → List EnumValue → List ValueIndex
  | _, [] => []
  | i, v :: vs => ⟨v.number, i⟩ :: valueIndexListAux (i + 1) vs

def valueIndexList (d : EnumDescriptor) : List ValueIndex :=
  valueIndexListAux 0 d.values

/-- Ordering tested by `compare_name_indices_by_name` (c_enum.cc lines
109-114): `strcmp` at-most comparison of the names. -/
def nameLe (a b : NameIndex) : Prop :=
  a.name ≤ b.name

instance : DecidableRel nameLe := fun a b =>
  inferInstanceAs (Decidable (a.name ≤ b.name))

instance : IsTotal NameIndex nameLe :=
  ⟨fun a b => le_total a.name b.name⟩

instance : IsTrans NameIndex nameLe :=
  ⟨fun _ _ _ hab hbc => le_trans hab hbc⟩

/-- Ordering tested by `compare_value_indices_by_value_then_index` (c_enum.cc
lines 115-124): by value, ties broken by declaration index. -/
def valueLe (a b : ValueIndex) : Prop :=
  a.value < b.value ∨ (a.value = b.value ∧ a.index ≤ b.index)

instance : DecidableRel valueLe := fun a b =>
  inferInstanceAs
    (Decidable (a.value < b.value ∨ (a.value = b.value ∧ a.index ≤ b.index)))

instance : IsTotal ValueIndex valueLe := by
  constructor
  intro a b
  rcases lt_trichotomy a.value b.value with h | h | h
  · exact Or.inl (Or.inl h)
  · rcases Nat.le_total a.index b.index with hi | hi
    · exact Or.inl (Or.inr ⟨h, hi⟩)
    · exact Or.inr (Or.inr ⟨h.symm, hi⟩)
  · exact Or.inr (Or.inl h)

instance : IsTrans ValueIndex valueLe := by
  constructor
  intro a b c hab hbc
  rcases hab with h1 | ⟨h1, h1i⟩ <;> rcases hbc with h2 | ⟨h2, h2i⟩
  · exact Or.inl (lt_trans h1 h2)
  · exact Or.inl (h2 ▸ h1)
  · exact Or.inl (h1 ▸ h2)
  · exact Or.inr ⟨h1.trans h2, le_trans h1i h2i⟩

/-- The `qsort` of `name_index` (c_enum.cc lines 146-147), embedded as an
insertion sort.  `qsort` is unstable and `strcmp` leaves the order of equal
names unspecified; the embedding fixes one comparison-correct outcome. -/
def nameIndexSorted (d : EnumDescriptor) : List NameIndex :=
  (nameIndexList d).insertionSort nameLe

/-- The `qsort` of `value_index` (c_enum.cc lines 148-149), embedded as an
insertion sort.  The comparator is a total order that is antisymmetric on
the distinct (value, index) pairs, so every comparison-correct sort produces
this unique sorted permutation. -/
def valueIndexSorted (d : EnumDescriptor) : List ValueIndex :=
  (valueIndexList d).insertionSort valueLe

/-- Body of the in-place compaction loop of c_enum.cc lines 156-160 on a
positional list: while `j` scans the array, a differing adjacent pair writes
`value_index[n_unique_values++] = value_index[j]`.  The structural `fuel`
argument counts the remaining iterations `N - j`. -/
def compactGo : Nat → List ValueIndex → Nat → Nat → Nat →
    List ValueIndex × Nat
  | 0, a, n, _, _ => (a, n)
  | fuel + 1, a, n, j, N =>
    if j < N then
      if (a.getD (j - 1) default).value ≠ (a.getD j default).value then
        compactGo fuel (a.set n (a.getD j default)) (n + 1) (j + 1) N
      else
        compactGo fuel a n (j + 1) N
    else
      (a, n)

/-- The compaction loop of c_enum.cc lines 156-160; returns the final array
together with `n_unique_values`. -/
def compactLoop (a : List ValueIndex) (n j N : Nat) :
    List ValueIndex × Nat :=
  compactGo (N - j) a n j N

/-- The unique-value computation of c_enum.cc lines 152-161: zero for an
empty value list, otherwise the compaction loop starting at
`n_unique_values = 1`, `j = 1`. -/
def compactedValueIndex (d : EnumDescriptor) : List ValueIndex × Nat :=
  if d.values.length = 0 then (valueIndexSorted d, 0)
  else compactLoop (valueIndexSorted d) 1 1 d.values.length

def nUniqueValues (d : EnumDescriptor) : Nat :=
  (compactedValueIndex d).2

/-- Body of the emission loop of c_enum.cc lines 169-173: it rescans the
(post-compaction) array over the full original length and emits
`value_index[j]` whenever the adjacent values differ.  The structural
`fuel` argument counts the remaining iterations `N - j`. -/
def emitGo : Nat → List ValueIndex → Nat → Nat → List Nat
  | 0, _, _, _ => []
  | fuel + 1, a, j, N =>
    if j < N then
      if (a.getD (j - 1) default).value ≠ (a.getD j default).value then
        (a.getD j default).index :: emitGo fuel a (j + 1) N
      else
        emitGo fuel a (j + 1) N
    else
      []

/-- The emission loop of c_enum.cc lines 169-173. -/
def emitLoop (a : List ValueIndex) (j N : Nat) : List Nat :=
  emitGo (N - j) a j N

/-- The declaration indices rendered into the values-by-number table, in
emission order (c_enum.cc lines 167-174): entry `value_index[0]` first, then
the emission loop from `j = 1`. -/
def byNumberEmittedIndices (d : EnumDescriptor) : List Nat :=
  if 0 < d.values.length then
    ((compactedValueIndex d).1.getD 0 default).index ::
      emitLoop (compactedValueIndex d).1 1 d.values.length
  else
    []

/-- The declaration indices rendered into the values-by-name table, in
emission order (c_enum.cc lines 180-182). -/
def byNameEmittedIndices (d : EnumDescriptor) : List Nat :=
  (nameIndexSorted d).map NameIndex.index

/-- Variables of `GenerateValueInitializer` (c_enum.cc lines 98-107). -/
def valueInitVars (g : EnumGenerator) (index : Nat) :
    List (String × String) :=
  let vd := g.descriptor.values.getD index default
  setVar
    (setVar (setVar [] "enum_value_name" vd.name)
      "c_enum_value_name"
      (FullNameToUpper g.descriptor.fullName ++ "__" ++ ToUpper vd.name))
    "value" (SimpleItoa vd.number)

/-- Tokens of the record template
`"  { \"$enum_value_name$\", \"$c_enum_value_name$\", $value$ },\n"`. -/
def valueInitToks : List Tok :=
  [Tok.lit "  \x7b \"", Tok.var "enum_value_name", Tok.lit "\", \"",
   Tok.var "c_enum_value_name", Tok.lit "\", ", Tok.var "value",
   Tok.lit " \x7d,"]

/-- Embedding of `EnumGenerator::GenerateValueInitializer` (c_enum.cc lines
98-107). -/
def EnumGenerator.GenerateValueInitializer (g : EnumGenerator)
    (p : Printer) (index : Nat) : Printer :=
  p.printLine (valueInitVars g index) valueInitToks

/-- The rendered record for table entry `index` (without indentation and
newline); what `GenerateValueInitializer` writes on its single line. -/
def valueInitLine (g : EnumGenerator) (index : Nat) : String :=
  renderToks (valueInitVars g index) valueInitToks

/-- Variables built at the top of `GenerateEnumDescriptor` (c_enum.cc lines
127-133) plus the later `unique_value_count` assignment of line 163; every
`Print` of the function happens after that assignment. -/
def enumDescriptorVars (d : EnumDescriptor) : List (String × String) :=
  setVar
    (setVar
      (setVar
        (setVar
          (setVar
            (setVar
              (setVar [] "fullname" d.fullName)
              "lcclassname" (FullNameToLower d.fullName))
            "cname" (FullNameToC d.fullName))
          "shortname" d.name)
        "packagename" d.packageName)
      "value_count" (SimpleItoa (d.values.length : Int)))
    "unique_value_count" (SimpleItoa (nUniqueValues d : Int))

/-- Embedding of `EnumGenerator::GenerateEnumDescriptor` (c_enum.cc lines
126-197). -/
def EnumGenerator.GenerateEnumDescriptor (g : EnumGenerator) (p : Printer) :
    Printer :=
  let d := g.descriptor
  let vars := enumDescriptorVars d
  let p := p.printLine vars
    [Tok.lit "const ProtobufCEnumValue ", Tok.var "lcclassname",
     Tok.lit "_enum_values_by_number[", Tok.var "unique_value_count",
     Tok.lit "] ="]
  let p := p.printLine vars [Tok.lit "\x7b"]
  let p := (byNumberEmittedIndices d).foldl
    (fun q i => g.GenerateValueInitializer q i) p
  let p := p.printLine vars [Tok.lit "\x7d;"]
  let p := p.printLine vars
    [Tok.lit "const ProtobufCEnumValue ", Tok.var "lcclassname",
     Tok.lit "_enum_values_by_name[", Tok.var "value_count",
     Tok.lit "] ="]
  let p := p.printLine vars [Tok.lit "\x7b"]
  let p := (byNameEmittedIndices d).foldl
    (fun q i => g.GenerateValueInitializer q i) p
  let p := p.printLine vars [Tok.lit "\x7d;"]
  let p := p.printLine vars
    [Tok.lit "const ProtobufCEnumDescriptor ", Tok.var "lcclassname",
     Tok.lit "__descriptor ="]
  let p := p.printLine vars [Tok.lit "\x7b"]
  let p := p.printLine vars [Tok.lit "  \"", Tok.var "fullname", Tok.lit "\","]
  let p := p.printLine vars [Tok.lit "  \"", Tok.var "shortname", Tok.lit "\","]
  let p := p.printLine vars [Tok.lit "  \"", Tok.var "cname", Tok.lit "\","]
  let p := p.printLine vars
    [Tok.lit "  \"", Tok.var "packagename", Tok.lit "\","]
  let p := p.printLine vars [Tok.lit "  ", Tok.var "unique_value_count", Tok.lit ","]
  let p := p.printLine vars
    [Tok.lit "  ", Tok.var "lcclassname", Tok.lit "_enum_values_by_number,"]
  let p := p.printLine vars [Tok.lit "  ", Tok.var "value_count", Tok.lit ","]
  let p := p.printLine vars
    [Tok.lit "  ", Tok.var "lcclassname", Tok.lit "_enum_values_by_name"]
  p.printLine vars [Tok.lit "\x7d;"]

/-- The full generation pipeline on one descriptor: type definition,
descriptor forward declaration, then the full descriptor definition. -/
def fullPipeline (g : EnumGenerator) (p : Printer) : Printer :=
  g.GenerateEnumDescriptor (g.GenerateDescriptorDeclarations
    (g.GenerateDefinition p))

/-- Number of adjacent pairs with differing values in a list of
`ValueIndex` entries; on a value-sorted list this is one less than the
number of distinct values. -/
def adjCountV : List ValueIndex → Nat
  | x :: y :: rest =>
    (if x.value ≠ y.value then 1 else 0) + adjCountV (y :: rest)
  | _ => 0

/-- A descriptor with three values sharing the number 1 followed by the
number 2; declaration order A, B, C, D. -/
def dTriple : EnumDescriptor :=
  ⟨"pkg.E", "E", "pkg", [⟨"A", 1⟩, ⟨"B", 1⟩, ⟨"C", 1⟩, ⟨"D", 2⟩]⟩

/-- The worked example of spec §8. -/
def dColors : EnumDescriptor :=
  ⟨"pkg.E", "E", "pkg",
    [⟨"RED", 0⟩, ⟨"GREEN", 5⟩, ⟨"BLUE", 5⟩, ⟨"ALPHA", -1⟩]⟩

/-- A descriptor whose single value has a lower-case symbolic name. -/
def dLower : EnumDescriptor :=
  ⟨"pkg.Color", "Color", "pkg", [⟨"red", 1⟩]⟩

/-- The degenerate descriptor with no values. -/
def dEmpty : EnumDescriptor :=
  ⟨"pkg.E", "E", "pkg", []⟩

/-- A two-value descriptor whose second value carries the smaller number. -/
def dTwo : EnumDescriptor :=
  ⟨"pkg.E", "E", "pkg", [⟨"B", 2⟩, ⟨"A", 1⟩]⟩

/-!
Lemma layer: characterizations of the printer and of each generator.
-/

theorem concatList_nil : concatList [] = "" := rfl

theorem concatList_cons (s : String) (ss : List String) :
    concatList (s :: ss) = s ++ concatList ss := rfl

theorem printLine_eq (p : Printer) (vars : List (String × String))
    (ts : List Tok) :
    p.printLine vars ts =
      ⟨p.indent, p.out ++ (indentStr p.indent ++ renderToks vars ts ++ "\n")⟩ :=
  rfl

/-- A fold of printing steps appends the concatenation of the individual
fragments and leaves the indentation unchanged. -/
theorem foldl_printLine_eq {α : Type} (step : Printer → α → Printer)
    (emit : Nat → α → String)
    (hstep : ∀ p x, step p x = ⟨p.indent, p.out ++ emit p.indent x⟩) :
    ∀ (l : List α) (p : Printer),
      l.foldl step p =
        ⟨p.indent, p.out ++ concatList (l.map (emit p.indent))⟩
  | [], p => by cases p; simp [concatList]
  | x :: xs, p => by
    rw [List.foldl_cons, foldl_printLine_eq step emit hstep xs (step p x),
      hstep]
    simp [concatList, String.append_assoc]

/-- Full characterization of `GenerateDefinition`: header line, one member
line per value in declaration order, footer line. -/
theorem generateDefinition_eq (g : EnumGenerator) (p : Printer) :
    g.GenerateDefinition p =
      ⟨p.indent,
        p.out ++
          ((indentStr p.indent ++
              renderToks (definitionVars g.descriptor)
                [Tok.lit "typedef enum _", Tok.var "classname",
                 Tok.lit " \x7b"] ++ "\n") ++
            (concatList (g.descriptor.values.map
                (memberLineOut g.descriptor (p.indent + 1))) ++
              (indentStr p.indent ++
                renderToks (definitionVars g.descriptor)
                  [Tok.lit "\x7d ", Tok.var "classname", Tok.lit ";"] ++
                "\n")))⟩ := by
  simp only [EnumGenerator.GenerateDefinition]
  rw [foldl_printLine_eq
      (fun q v => q.printLine (memberVars g.descriptor v) memberToks)
      (fun ind v => memberLineOut g.descriptor ind v)
      (fun q v => rfl)]
  simp [Printer.printLine, Printer.indentInc, Printer.indentDec,
    String.append_assoc]

/-- Rendering of the type-definition header line. -/
theorem render_def_header (d : EnumDescriptor) :
    renderToks (definitionVars d)
      [Tok.lit "typedef enum _", Tok.var "classname", Tok.lit " \x7b"] =
      "typedef enum _" ++ (FullNameToC d.fullName ++ " \x7b") := rfl

/-- Rendering of the type-definition footer line. -/
theorem render_def_footer (d : EnumDescriptor) :
    renderToks (definitionVars d)
      [Tok.lit "\x7d ", Tok.var "classname", Tok.lit ";"] =
      "\x7d " ++ (FullNameToC d.fullName ++ ";") := rfl

/-- Rendering of one enum member line: prefix, raw name, number. -/
theorem render_member (d : EnumDescriptor) (v : EnumValue) :
    renderToks (memberVars d v) memberToks =
      (FullNameToUpper d.fullName ++ "__") ++
        (v.name ++ (" = " ++ (SimpleItoa v.number ++ ","))) := rfl

/-- Rendering of one table record: original name, derived constant name,
number. -/
theorem valueInitLine_eq (g : EnumGenerator) (index : Nat) :
    valueInitLine g index =
      "  \x7b \"" ++
        ((g.descriptor.values.getD index default).name ++
          ("\", \"" ++
            ((FullNameToUpper g.descriptor.fullName ++ "__" ++
                ToUpper (g.descriptor.values.getD index default).name) ++
              ("\", " ++
                (SimpleItoa (g.descriptor.values.getD index default).number ++
                  " \x7d,"))))) := rfl

/-- Full characterization of `GenerateDescriptorDeclarations`. -/
theorem generateDescriptorDeclarations_eq (g : EnumGenerator) (p : Printer) :
    g.GenerateDescriptorDeclarations p =
      ⟨p.indent,
        p.out ++
          (indentStr p.indent ++
            ("extern " ++
              ((if g.dllexport_decl.isEmpty then ""
                else g.dllexport_decl ++ " ") ++
                ("const ProtobufCEnumDescriptor    " ++
                  (FullNameToLower g.descriptor.fullName ++
                    "__descriptor;")))) ++ "\n")⟩ := rfl

theorem generateValueInitializer_eq (g : EnumGenerator) (p : Printer)
    (index : Nat) :
    g.GenerateValueInitializer p index =
      ⟨p.indent,
        p.out ++ (indentStr p.indent ++ valueInitLine g index ++ "\n")⟩ := rfl

/-- Full characterization of `GenerateEnumDescriptor`: the values-by-number
table (header, entries in emission order, closer), the values-by-name table
(header, entries in by-name order, closer), then the eleven lines of the
descriptor record. -/
theorem generateEnumDescriptor_eq (g : EnumGenerator) (p : Printer) :
    g.GenerateEnumDescriptor p =
      ⟨p.indent,
       p.out ++ concatList
      [indentStr p.indent ++ renderToks (enumDescriptorVars g.descriptor)
         [Tok.lit "const ProtobufCEnumValue ", Tok.var "lcclassname",
          Tok.lit "_enum_values_by_number[", Tok.var "unique_value_count",
          Tok.lit "] ="] ++ "\n",
       indentStr p.indent ++ renderToks (enumDescriptorVars g.descriptor)
         [Tok.lit "\x7b"] ++ "\n",
       concatList ((byNumberEmittedIndices g.descriptor).map
         (fun i => indentStr p.indent ++ valueInitLine g i ++ "\n")),
       indentStr p.indent ++ renderToks (enumDescriptorVars g.descriptor)
         [Tok.lit "\x7d;"] ++ "\n",
       indentStr p.indent ++ renderToks (enumDescriptorVars g.descriptor)
         [Tok.lit "const ProtobufCEnumValue ", Tok.var "lcclassname",
          Tok.lit "_enum_values_by_name[", Tok.var "value_count",
          Tok.lit "] ="] ++ "\n",
       indentStr p.indent ++ renderToks (enumDescriptorVars g.descriptor)
         [Tok.lit "\x7b"] ++ "\n",
       concatList ((byNameEmittedIndices g.descriptor).map
         (fun i => indentStr p.indent ++ valueInitLine g i ++ "\n")),
       indentStr p.indent ++ renderToks (enumDescriptorVars g.descriptor)
         [Tok.lit "\x7d;"] ++ "\n",
       indentStr p.indent ++ renderToks (enumDescriptorVars g.descriptor)
         [Tok.lit "const ProtobufCEnumDescriptor ", Tok.var "lcclassname",
          Tok.lit "__descriptor ="] ++ "\n",
       indentStr p.indent ++ renderToks (enumDescriptorVars g.descriptor)
         [Tok.lit "\x7b"] ++ "\n",
       indentStr p.indent ++ renderToks (enumDescriptorVars g.descriptor)
         [Tok.lit "  \"", Tok.var "fullname", Tok.lit "\","] ++ "\n",
       indentStr p.indent ++ renderToks (enumDescriptorVars g.descriptor)
         [Tok.lit "  \"", Tok.var "shortname", Tok.lit "\","] ++ "\n",
       indentStr p.indent ++ renderToks (enumDescriptorVars g.descriptor)
         [Tok.lit "  \"", Tok.var "cname", Tok.lit "\","] ++ "\n",
       indentStr p.indent ++ renderToks (enumDescriptorVars g.descriptor)
         [Tok.lit "  \"", Tok.var "packagename", Tok.lit "\","] ++ "\n",
       indentStr p.indent ++ renderToks (enumDescriptorVars g.descriptor)
         [Tok.lit "  ", Tok.var "unique_value_count", Tok.lit ","] ++ "\n",
       indentStr p.indent ++ renderToks (enumDescriptorVars g.descriptor)
         [Tok.lit "  ", Tok.var "lcclassname",
          Tok.lit "_enum_values_by_number,"] ++ "\n",
       indentStr p.indent ++ renderToks (enumDescriptorVars g.descriptor)
         [Tok.lit "  ", Tok.var "value_count", Tok.lit ","] ++ "\n",
       indentStr p.indent ++ renderToks (enumDescriptorVars g.descriptor)
         [Tok.lit "  ", Tok.var "lcclassname",
          Tok.lit "_enum_values_by_name"] ++ "\n",
       indentStr p.indent ++ renderToks (enumDescriptorVars g.descriptor)
         [Tok.lit "\x7d;"] ++ "\n"]⟩ := by
  simp only [EnumGenerator.GenerateEnumDescriptor]
  simp only [foldl_printLine_eq
    (fun q i => g.GenerateValueInitializer q i)
    (fun ind i => indentStr ind ++ valueInitLine g i ++ "\n")
    (fun q i => rfl)]
  simp [Printer.printLine, concatList, String.append_assoc]

/-- Claim C6: for every EnumDescriptor, the member order in the type
declaration emitted by GenerateDefinition equals the original declaration
order of the values, independent of both canonical orderings: the body is
the concatenation, over `d.values` in list order, of that value's member
line. -/
theorem claim_C6_member_order_is_declaration_order (d : EnumDescriptor)
    (q : String) :
    (EnumGenerator.GenerateDefinition ⟨d, q⟩ emptyPrinter).out =
      "typedef enum _" ++ FullNameToC d.fullName ++ " \x7b" ++ "\n" ++
        concatList (d.values.map (memberLineOut d 1)) ++
        "\x7d " ++ FullNameToC d.fullName ++ ";" ++ "\n" := by
  rw [generateDefinition_eq]
  simp [emptyPrinter, render_def_header, render_def_footer, indentStr,
    concatList, String.append_assoc]

/-- Claim C3 (amended): the member name emitted for a value in the type
declaration is `ConstantPrefixOf fullName` followed by the value's symbolic
name verbatim (not upper-cased), and the member's literal is the value's
number. -/
theorem claim_C3_member_uses_raw_name (d : EnumDescriptor)
    (v : EnumValue) (_h : v ∈ d.values) :
    memberLineOut d 1 v =
      "  " ++ ConstantPrefixOf d.fullName ++ v.name ++ " = " ++
        SimpleItoa v.number ++ "," ++ "\n" := by
  simp [memberLineOut, render_member, ConstantPrefixOf, indentStr,
    concatList, String.append_assoc]

/-- Witness for claim C3 at the concrete descriptor `dLower`. -/
theorem claim_C3_witness :
    (⟨"red", 1⟩ : EnumValue) ∈ dLower.values ∧
      memberLineOut dLower 1 ⟨"red", 1⟩ =
        "  " ++ ConstantPrefixOf dLower.fullName ++
          (⟨"red", 1⟩ : EnumValue).name ++ " = " ++
          SimpleItoa (⟨"red", 1⟩ : EnumValue).number ++ "," ++ "\n" :=
  ⟨by decide,
   claim_C3_member_uses_raw_name dLower ⟨"red", 1⟩ (by decide)⟩

/-- Counterexample for claim C3 as stated: at `dLower`, whose single value
has the symbolic name "red", the emitted member line differs from the line
the claim predicts with `ConstantPrefixOf fullName ++ UpperValueSuffix
name`, because GenerateDefinition does not upper-case the name. -/
theorem claim_C3_counterexample :
    memberLineOut dLower 1 ⟨"red", 1⟩ ≠
      "  " ++ ConstantPrefixOf "pkg.Color" ++ UpperValueSuffix "red" ++
        " = " ++ SimpleItoa 1 ++ "," ++ "\n" := by
  decide

/-- Claim C10: the outputs of GenerateDefinition and GenerateEnumDescriptor
are identical for any two choices of the export-visibility qualifier; only
GenerateDescriptorDeclarations reads it. -/
theorem claim_C10_qualifier_independence (d : EnumDescriptor)
    (q1 q2 : String) (p : Printer) :
    EnumGenerator.GenerateDefinition ⟨d, q1⟩ p =
        EnumGenerator.GenerateDefinition ⟨d, q2⟩ p ∧
      EnumGenerator.GenerateEnumDescriptor ⟨d, q1⟩ p =
        EnumGenerator.GenerateEnumDescriptor ⟨d, q2⟩ p :=
  ⟨rfl, rfl⟩

/-- Claim C8: GenerateDescriptorDeclarations emits exactly one
external-linkage declaration of `LowerAccessorName fullName ++
"__descriptor"`, preceded by the qualifier plus a single space when the
qualifier is non-empty and by no qualifier text when it is empty. -/
theorem claim_C8_descriptor_declaration (d : EnumDescriptor) (q : String) :
    (EnumGenerator.GenerateDescriptorDeclarations ⟨d, q⟩ emptyPrinter).out =
      "extern " ++ (if q = "" then "" else q ++ " ") ++
        "const ProtobufCEnumDescriptor    " ++
        LowerAccessorName d.fullName ++ "__descriptor;" ++ "\n" := by
  rw [generateDescriptorDeclarations_eq]
  have hif : (if q.isEmpty then "" else q ++ " ") =
      (if q = "" then "" else q ++ " ") := by
    by_cases h : q = ""
    · subst h; rfl
    · have hb : q.isEmpty = false := by
        rw [Bool.eq_false_iff]
        intro hb
        exact h ((String.isEmpty_iff q).mp hb)
      simp [hb, h]
  apply String.ext
  simp [hif, emptyPrinter, LowerAccessorName, indentStr, concatList,
    List.append_assoc, show ("" : String).data = [] from rfl]

/-- Claim C7: re-running the full pipeline on the same descriptor and
qualifier appends a byte-identical copy of the first run's output
(determinism: the output is a function of the inputs only). -/
theorem claim_C7_pipeline_deterministic (d : EnumDescriptor) (q : String) :
    (fullPipeline ⟨d, q⟩ (fullPipeline ⟨d, q⟩ emptyPrinter)).out =
      (fullPipeline ⟨d, q⟩ emptyPrinter).out ++
        (fullPipeline ⟨d, q⟩ emptyPrinter).out := by
  simp only [fullPipeline, generateDefinition_eq,
    generateDescriptorDeclarations_eq, generateEnumDescriptor_eq]
  apply String.ext
  simp [emptyPrinter, List.append_assoc,
    show ("" : String).data = [] from rfl]

/-!
Facts about the derived index lists.
-/

theorem valueIndexListAux_length (i : Nat) (l : List EnumValue) :
    (valueIndexListAux i l).length = l.length := by
  induction l generalizing i with
  | nil => rfl
  | cons v vs ih => simp [valueIndexListAux, ih]

theorem nameIndexListAux_length (i : Nat) (l : List EnumValue) :
    (nameIndexListAux i l).length = l.length := by
  induction l generalizing i with
  | nil => rfl
  | cons v vs ih => simp [nameIndexListAux, ih]

theorem mem_valueIndexListAux {x : ValueIndex} (i : Nat)
    (l : List EnumValue) :
    x ∈ valueIndexListAux i l ↔
      ∃ k, k < l.length ∧ x = ⟨(l.getD k default).number, i + k⟩ := by
  induction l generalizing i with
  | nil => simp [valueIndexListAux]
  | cons v vs ih =>
    simp only [valueIndexListAux, List.mem_cons, ih]
    constructor
    · rintro (rfl | ⟨k, hk, rfl⟩)
      · exact ⟨0, by simp, by simp [List.getD]⟩
      · exact ⟨k + 1, by simpa using hk, by
          simp [List.getD]
          omega⟩
    · rintro ⟨k, hk, rfl⟩
      cases k with
      | zero => left; simp [List.getD]
      | succ m =>
        right
        refine ⟨m, by simpa using hk, ?_⟩
        simp [List.getD]
        omega

theorem mem_nameIndexListAux {x : NameIndex} (i : Nat)
    (l : List EnumValue) :
    x ∈ nameIndexListAux i l ↔
      ∃ k, k < l.length ∧ x = ⟨(l.getD k default).name, i + k⟩ := by
  induction l generalizing i with
  | nil => simp [nameIndexListAux]
  | cons v vs ih =>
    simp only [nameIndexListAux, List.mem_cons, ih]
    constructor
    · rintro (rfl | ⟨k, hk, rfl⟩)
      · exact ⟨0, by simp, by simp [List.getD]⟩
      · exact ⟨k + 1, by simpa using hk, by
          simp [List.getD]
          omega⟩
    · rintro ⟨k, hk, rfl⟩
      cases k with
      | zero => left; simp [List.getD]
      | succ m =>
        right
        refine ⟨m, by simpa using hk, ?_⟩
        simp [List.getD]
        omega

theorem valueIndexListAux_map_value (i : Nat) (l : List EnumValue) :
    (valueIndexListAux i l).map ValueIndex.value =
      l.map EnumValue.number := by
  induction l generalizing i with
  | nil => rfl
  | cons v vs ih => simp [valueIndexListAux, ih]

theorem valueIndexSorted_perm (d : EnumDescriptor) :
    List.Perm (valueIndexSorted d) (valueIndexList d) :=
  List.perm_insertionSort valueLe (valueIndexList d)

theorem valueIndexSorted_sorted (d : EnumDescriptor) :
    (valueIndexSorted d).Pairwise valueLe :=
  List.sorted_insertionSort valueLe (valueIndexList d)

theorem valueIndexSorted_length (d : EnumDescriptor) :
    (valueIndexSorted d).length = d.values.length := by
  rw [(valueIndexSorted_perm d).length_eq]
  exact valueIndexListAux_length 0 d.values

theorem nameIndexSorted_perm (d : EnumDescriptor) :
    List.Perm (nameIndexSorted d) (nameIndexList d) :=
  List.perm_insertionSort nameLe (nameIndexList d)

theorem nameIndexSorted_sorted (d : EnumDescriptor) :
    (nameIndexSorted d).Pairwise nameLe :=
  List.sorted_insertionSort nameLe (nameIndexList d)

theorem nameIndexSorted_length (d : EnumDescriptor) :
    (nameIndexSorted d).length = d.values.length := by
  rw [(nameIndexSorted_perm d).length_eq]
  exact nameIndexListAux_length 0 d.values

theorem adjCountV_zero_of_short {l : List ValueIndex} (h : l.length ≤ 1) :
    adjCountV l = 0 := by
  match l with
  | [] => rfl
  | [x] => rfl
  | x :: y :: rest => simp at h

theorem adjCountV_cons_cons (x y : ValueIndex) (rest : List ValueIndex) :
    adjCountV (x :: y :: rest) =
      (if x.value ≠ y.value then 1 else 0) + adjCountV (y :: rest) := rfl

theorem getD_set_ne (l : List ValueIndex) (n k : Nat) (v : ValueIndex)
    (h : n ≠ k) : (l.set n v).getD k default = l.getD k default := by
  simp [List.getD_eq_getElem?_getD, List.getElem?_set_ne h]

theorem getD_set_self (l : List ValueIndex) (n : Nat) (v : ValueIndex)
    (h : n < l.length) : (l.set n v).getD n default = v := by
  simp [List.getD_eq_getElem?_getD, List.getElem?_set_self h]

theorem getD_eq_getElem_vi (l : List ValueIndex) (k : Nat)
    (h : k < l.length) : l.getD k default = l.get ⟨k, h⟩ := by
  simp [List.getD_eq_getElem?_getD, List.getElem?_eq_getElem h]

theorem drop_getD_cons (l : List ValueIndex) (k : Nat) (h : k < l.length) :
    l.drop k = l.getD k default :: l.drop (k + 1) := by
  rw [List.drop_eq_getElem_cons h, getD_eq_getElem_vi l k h]
  rfl

/-- Invariant of the in-place compaction loop: although the loop mutates the
array it is scanning, every comparison reads the original sorted entries, so
the resulting `n_unique_values` is the initial count plus the number of
differing adjacent pairs of the untouched array from position `j - 1` on;
position 0 is never overwritten. -/
theorem compactGo_spec :
    ∀ (fuel : Nat) (arr a : List ValueIndex) (n j N : Nat),
      N = arr.length → a.length = arr.length → fuel = N - j →
      1 ≤ n → n ≤ j →
      (∀ k, n ≤ k → a.getD k default = arr.getD k default) →
      (n = j → a.getD (j - 1) default = arr.getD (j - 1) default) →
      a.getD 0 default = arr.getD 0 default →
      (compactGo fuel a n j N).2 = n + adjCountV (arr.drop (j - 1)) ∧
        (compactGo fuel a n j N).1.getD 0 default =
          arr.getD 0 default := by
  intro fuel
  induction fuel with
  | zero =>
    intro arr a n j N hN hlen hfuel hn hnj hpres hedge h0
    have hshort : (arr.drop (j - 1)).length ≤ 1 := by
      rw [List.length_drop]
      omega
    rw [adjCountV_zero_of_short hshort]
    exact ⟨by simp [compactGo], h0⟩
  | succ fuel ih =>
    intro arr a n j N hN hlen hfuel hn hnj hpres hedge h0
    have hjN : j < N := by omega
    have hjlt : j < arr.length := by omega
    have hj1 : j - 1 < arr.length := by omega
    have hgetj : a.getD j default = arr.getD j default := hpres j hnj
    have hgetjm : a.getD (j - 1) default = arr.getD (j - 1) default := by
      by_cases hc : n ≤ j - 1
      · exact hpres _ hc
      · exact hedge (by omega)
    have hdrop1 : arr.drop (j - 1) =
        arr.getD (j - 1) default :: arr.drop j := by
      rw [drop_getD_cons arr (j - 1) hj1]
      congr 2
      omega
    have hdrop2 : arr.drop j = arr.getD j default :: arr.drop (j + 1) :=
      drop_getD_cons arr j hjlt
    simp only [compactGo]
    rw [if_pos hjN]
    by_cases hd :
        (arr.getD (j - 1) default).value ≠ (arr.getD j default).value
    · have hcond : (a.getD (j - 1) default).value ≠
          (a.getD j default).value := by
        rw [hgetj, hgetjm]
        exact hd
      rw [if_pos hcond]
      have h5 : ∀ k, n + 1 ≤ k →
          (a.set n (a.getD j default)).getD k default =
            arr.getD k default := by
        intro k hk
        rw [getD_set_ne _ _ _ _ (by omega)]
        exact hpres k (by omega)
      have h6 : n + 1 = j + 1 →
          (a.set n (a.getD j default)).getD (j + 1 - 1) default =
            arr.getD (j + 1 - 1) default := by
        intro he
        have hn_eq : n = j := by omega
        have hset : (a.set n (a.getD j default)).getD (j + 1 - 1) default =
            a.getD j default := by
          rw [Nat.add_sub_cancel, hn_eq]
          exact getD_set_self a j _ (by omega)
        rw [hset, Nat.add_sub_cancel, hgetj]
      have h7 : (a.set n (a.getD j default)).getD 0 default =
          arr.getD 0 default := by
        rw [getD_set_ne _ _ _ _ (by omega)]
        exact h0
      obtain ⟨hc1, hc2⟩ := ih arr (a.set n (a.getD j default)) (n + 1)
        (j + 1) N hN (by simp [hlen]) (by omega) (by omega) (by omega)
        h5 h6 h7
      rw [Nat.add_sub_cancel] at hc1
      refine ⟨?_, hc2⟩
      rw [hc1, hdrop1, hdrop2, adjCountV_cons_cons, if_pos hd]
      omega
    · have hcond : ¬ ((a.getD (j - 1) default).value ≠
          (a.getD j default).value) := by
        rw [hgetj, hgetjm]
        exact hd
      rw [if_neg hcond]
      obtain ⟨hc1, hc2⟩ := ih arr a n (j + 1) N hN hlen (by omega) hn
        (by omega) hpres (by omega) h0
      rw [Nat.add_sub_cancel] at hc1
      refine ⟨?_, hc2⟩
      rw [hc1, hdrop1, hdrop2, adjCountV_cons_cons, if_neg hd]
      omega

theorem compactedValueIndex_spec (d : EnumDescriptor)
    (h : d.values ≠ []) :
    nUniqueValues d = 1 + adjCountV (valueIndexSorted d) ∧
      (compactedValueIndex d).1.getD 0 default =
        (valueIndexSorted d).getD 0 default := by
  have hlen : (valueIndexSorted d).length = d.values.length :=
    valueIndexSorted_length d
  have hne : ¬ (d.values.length = 0) := by
    have := List.length_pos.mpr h
    omega
  unfold nUniqueValues compactedValueIndex compactLoop
  rw [if_neg hne]
  have hspec := compactGo_spec (d.values.length - 1) (valueIndexSorted d)
    (valueIndexSorted d) 1 1 d.values.length hlen.symm rfl rfl
    (by omega) (by omega) (fun k _ => rfl) (fun _ => rfl) rfl
  simpa using hspec

theorem sorted_one_add_adjCountV :
    ∀ (l : List ValueIndex), l.Pairwise valueLe → l ≠ [] →
      1 + adjCountV l = ((l.map ValueIndex.value).dedup).length
  | [], _, hne => absurd rfl hne
  | [x], _, _ => by simp [adjCountV]
  | x :: y :: r, hs, _ => by
    have hs' : (y :: r).Pairwise valueLe := hs.of_cons
    have hx : ∀ z ∈ y :: r, valueLe x z := (List.pairwise_cons.mp hs).1
    have hxyle : x.value ≤ y.value := by
      rcases hx y (List.mem_cons_self y r) with hlt | ⟨heq, _⟩
      · exact le_of_lt hlt
      · exact le_of_eq heq
    have ih := sorted_one_add_adjCountV (y :: r) hs' (by simp)
    by_cases hxy : x.value = y.value
    · rw [adjCountV_cons_cons, if_neg (by simpa using hxy)]
      have hmem : x.value ∈ (y :: r).map ValueIndex.value :=
        List.mem_map.mpr ⟨y, List.mem_cons_self y r, hxy.symm⟩
      rw [List.map_cons, List.dedup_cons_of_mem hmem]
      omega
    · rw [adjCountV_cons_cons, if_pos (by simpa using hxy)]
      have hnotmem : x.value ∉ (y :: r).map ValueIndex.value := by
        intro hmem
        rcases List.mem_map.mp hmem with ⟨z, hz, hzv⟩
        have hyz : y.value ≤ z.value := by
          rcases List.mem_cons.mp hz with rfl | hzr
          · exact le_refl _
          · rcases (List.pairwise_cons.mp hs').1 z hzr with hlt | ⟨heq, _⟩
            · exact le_of_lt hlt
            · exact le_of_eq heq
        apply hxy
        omega
      rw [List.map_cons, List.dedup_cons_of_not_mem hnotmem,
        List.length_cons]
      omega

/-- The `n_unique_values` stamped into the output equals the number of
distinct integer values in the input. -/
theorem nUniqueValues_eq_distinct (d : EnumDescriptor) :
    nUniqueValues d = ((d.values.map EnumValue.number).dedup).length := by
  by_cases h : d.values = []
  · simp [nUniqueValues, compactedValueIndex, h]
  · have hperm1 : List.Perm ((valueIndexSorted d).map ValueIndex.value)
        ((valueIndexList d).map ValueIndex.value) :=
      (valueIndexSorted_perm d).map _
    have hmapeq : (valueIndexList d).map ValueIndex.value =
        d.values.map EnumValue.number := valueIndexListAux_map_value 0 _
    rw [hmapeq] at hperm1
    have hlen := hperm1.dedup.length_eq
    have h1 := (compactedValueIndex_spec d h).1
    have hsne : valueIndexSorted d ≠ [] := by
      intro he
      apply h
      have hl := valueIndexSorted_length d
      rw [he] at hl
      exact List.length_eq_zero.mp hl.symm
    have h2 := sorted_one_add_adjCountV _ (valueIndexSorted_sorted d) hsne
    omega

theorem render_open_brace (d : EnumDescriptor) :
    renderToks (enumDescriptorVars d) [Tok.lit "\x7b"] = "\x7b" := rfl

theorem render_close_brace (d : EnumDescriptor) :
    renderToks (enumDescriptorVars d) [Tok.lit "\x7d;"] = "\x7d;" := rfl

theorem render_num_header (d : EnumDescriptor) :
    renderToks (enumDescriptorVars d)
      [Tok.lit "const ProtobufCEnumValue ", Tok.var "lcclassname",
       Tok.lit "_enum_values_by_number[", Tok.var "unique_value_count",
       Tok.lit "] ="] =
      "const ProtobufCEnumValue " ++
        (FullNameToLower d.fullName ++
          ("_enum_values_by_number[" ++
            (SimpleItoa (nUniqueValues d : Int) ++ "] ="))) := rfl

theorem render_name_header (d : EnumDescriptor) :
    renderToks (enumDescriptorVars d)
      [Tok.lit "const ProtobufCEnumValue ", Tok.var "lcclassname",
       Tok.lit "_enum_values_by_name[", Tok.var "value_count",
       Tok.lit "] ="] =
      "const ProtobufCEnumValue " ++
        (FullNameToLower d.fullName ++
          ("_enum_values_by_name[" ++
            (SimpleItoa (d.values.length : Int) ++ "] ="))) := rfl

theorem render_record_head (d : EnumDescriptor) :
    renderToks (enumDescriptorVars d)
      [Tok.lit "const ProtobufCEnumDescriptor ", Tok.var "lcclassname",
       Tok.lit "__descriptor ="] =
      "const ProtobufCEnumDescriptor " ++
        (FullNameToLower d.fullName ++ "__descriptor =") := rfl

theorem render_field_fullname (d : EnumDescriptor) :
    renderToks (enumDescriptorVars d)
      [Tok.lit "  \"", Tok.var "fullname", Tok.lit "\","] =
      "  \"" ++ (d.fullName ++ "\",") := rfl

theorem render_field_shortname (d : EnumDescriptor) :
    renderToks (enumDescriptorVars d)
      [Tok.lit "  \"", Tok.var "shortname", Tok.lit "\","] =
      "  \"" ++ (d.name ++ "\",") := rfl

theorem render_field_cname (d : EnumDescriptor) :
    renderToks (enumDescriptorVars d)
      [Tok.lit "  \"", Tok.var "cname", Tok.lit "\","] =
      "  \"" ++ (FullNameToC d.fullName ++ "\",") := rfl

theorem render_field_package (d : EnumDescriptor) :
    renderToks (enumDescriptorVars d)
      [Tok.lit "  \"", Tok.var "packagename", Tok.lit "\","] =
      "  \"" ++ (d.packageName ++ "\",") := rfl

theorem render_field_unique_count (d : EnumDescriptor) :
    renderToks (enumDescriptorVars d)
      [Tok.lit "  ", Tok.var "unique_value_count", Tok.lit ","] =
      "  " ++ (SimpleItoa (nUniqueValues d : Int) ++ ",") := rfl

theorem render_field_by_number_ref (d : EnumDescriptor) :
    renderToks (enumDescriptorVars d)
      [Tok.lit "  ", Tok.var "lcclassname",
       Tok.lit "_enum_values_by_number,"] =
      "  " ++ (FullNameToLower d.fullName ++ "_enum_values_by_number,") :=
  rfl

theorem render_field_value_count (d : EnumDescriptor) :
    renderToks (enumDescriptorVars d)
      [Tok.lit "  ", Tok.var "value_count", Tok.lit ","] =
      "  " ++ (SimpleItoa (d.values.length : Int) ++ ",") := rfl

theorem render_field_by_name_ref (d : EnumDescriptor) :
    renderToks (enumDescriptorVars d)
      [Tok.lit "  ", Tok.var "lcclassname",
       Tok.lit "_enum_values_by_name"] =
      "  " ++ (FullNameToLower d.fullName ++ "_enum_values_by_name") := rfl

/-- Claim C4: the descriptor record binds, in this field order, full dotted
name, short name, generated type identifier, package name, the distinct
integer-value count, the values-by-number table symbol, the total value
count, and the values-by-name table symbol; the record is the final part of
the output, and `nUniqueValues` equals the number of distinct integers
among the values. -/
theorem claim_C4_descriptor_record_fields (d : EnumDescriptor)
    (q : String) :
    (∃ s, (EnumGenerator.GenerateEnumDescriptor ⟨d, q⟩ emptyPrinter).out =
      s ++
        ("const ProtobufCEnumDescriptor " ++ FullNameToLower d.fullName ++
          "__descriptor =" ++ "\n" ++ "\x7b" ++ "\n" ++
          "  \"" ++ d.fullName ++ "\"," ++ "\n" ++
          "  \"" ++ d.name ++ "\"," ++ "\n" ++
          "  \"" ++ FullNameToC d.fullName ++ "\"," ++ "\n" ++
          "  \"" ++ d.packageName ++ "\"," ++ "\n" ++
          "  " ++ SimpleItoa (nUniqueValues d : Int) ++ "," ++ "\n" ++
          "  " ++ FullNameToLower d.fullName ++ "_enum_values_by_number," ++
          "\n" ++
          "  " ++ SimpleItoa (d.values.length : Int) ++ "," ++ "\n" ++
          "  " ++ FullNameToLower d.fullName ++ "_enum_values_by_name" ++
          "\n" ++ "\x7d;" ++ "\n")) ∧
      nUniqueValues d = ((d.values.map EnumValue.number).dedup).length := by
  constructor
  · rw [generateEnumDescriptor_eq]
    refine ⟨concatList
      [indentStr emptyPrinter.indent ++
         renderToks (enumDescriptorVars d)
           [Tok.lit "const ProtobufCEnumValue ", Tok.var "lcclassname",
            Tok.lit "_enum_values_by_number[",
            Tok.var "unique_value_count", Tok.lit "] ="] ++ "\n",
       indentStr emptyPrinter.indent ++
         renderToks (enumDescriptorVars d) [Tok.lit "\x7b"] ++ "\n",
       concatList ((byNumberEmittedIndices d).map
         (fun i => indentStr emptyPrinter.indent ++
           valueInitLine ⟨d, q⟩ i ++ "\n")),
       indentStr emptyPrinter.indent ++
         renderToks (enumDescriptorVars d) [Tok.lit "\x7d;"] ++ "\n",
       indentStr emptyPrinter.indent ++
         renderToks (enumDescriptorVars d)
           [Tok.lit "const ProtobufCEnumValue ", Tok.var "lcclassname",
            Tok.lit "_enum_values_by_name[", Tok.var "value_count",
            Tok.lit "] ="] ++ "\n",
       indentStr emptyPrinter.indent ++
         renderToks (enumDescriptorVars d) [Tok.lit "\x7b"] ++ "\n",
       concatList ((byNameEmittedIndices d).map
         (fun i => indentStr emptyPrinter.indent ++
           valueInitLine ⟨d, q⟩ i ++ "\n")),
       indentStr emptyPrinter.indent ++
         renderToks (enumDescriptorVars d) [Tok.lit "\x7d;"] ++ "\n"], ?_⟩
    apply String.ext
    simp [concatList, indentStr, emptyPrinter, render_record_head,
      render_open_brace, render_close_brace, render_field_fullname,
      render_field_shortname, render_field_cname, render_field_package,
      render_field_unique_count, render_field_by_number_ref,
      render_field_value_count, render_field_by_name_ref,
      List.append_assoc, show ("" : String).data = [] from rfl]
  · exact nUniqueValues_eq_distinct d

set_option maxRecDepth 8000 in
/-- Claim C2: on an empty value list every renderer produces valid vacuous
output: the type declaration has an empty body, both tables have zero
entries, and the descriptor record carries `unique_value_count = 0` and
`value_count = 0`; no element of the empty value sequence is rendered. -/
theorem claim_C2_empty_input (d : EnumDescriptor) (q : String)
    (h : d.values = []) :
    (EnumGenerator.GenerateDefinition ⟨d, q⟩ emptyPrinter).out =
        "typedef enum _" ++ FullNameToC d.fullName ++ " \x7b" ++ "\n" ++
          "\x7d " ++ FullNameToC d.fullName ++ ";" ++ "\n" ∧
      (EnumGenerator.GenerateEnumDescriptor ⟨d, q⟩ emptyPrinter).out =
        "const ProtobufCEnumValue " ++ FullNameToLower d.fullName ++
          "_enum_values_by_number[" ++ "0" ++ "] =" ++ "\n" ++
          "\x7b" ++ "\n" ++ "\x7d;" ++ "\n" ++
          "const ProtobufCEnumValue " ++ FullNameToLower d.fullName ++
          "_enum_values_by_name[" ++ "0" ++ "] =" ++ "\n" ++
          "\x7b" ++ "\n" ++ "\x7d;" ++ "\n" ++
          "const ProtobufCEnumDescriptor " ++ FullNameToLower d.fullName ++
          "__descriptor =" ++ "\n" ++ "\x7b" ++ "\n" ++
          "  \"" ++ d.fullName ++ "\"," ++ "\n" ++
          "  \"" ++ d.name ++ "\"," ++ "\n" ++
          "  \"" ++ FullNameToC d.fullName ++ "\"," ++ "\n" ++
          "  \"" ++ d.packageName ++ "\"," ++ "\n" ++
          "  " ++ "0" ++ "," ++ "\n" ++
          "  " ++ FullNameToLower d.fullName ++ "_enum_values_by_number," ++
          "\n" ++
          "  " ++ "0" ++ "," ++ "\n" ++
          "  " ++ FullNameToLower d.fullName ++ "_enum_values_by_name" ++
          "\n" ++ "\x7d;" ++ "\n" ∧
      nUniqueValues d = 0 ∧
      byNumberEmittedIndices d = [] ∧
      byNameEmittedIndices d = [] := by
  have hnu : nUniqueValues d = 0 := by
    simp [nUniqueValues, compactedValueIndex, h]
  have hbn : byNumberEmittedIndices d = [] := by
    simp [byNumberEmittedIndices, h]
  have hbm : byNameEmittedIndices d = [] := by
    simp [byNameEmittedIndices, nameIndexSorted, nameIndexList, h,
      nameIndexListAux]
  refine ⟨?_, ?_, hnu, hbn, hbm⟩
  · rw [generateDefinition_eq]
    apply String.ext
    simp [h, concatList, indentStr, emptyPrinter, render_def_header,
      render_def_footer, List.append_assoc,
      show ("" : String).data = [] from rfl]
  · rw [generateEnumDescriptor_eq]
    apply String.ext
    simp [hbn, hbm, concatList, indentStr, emptyPrinter,
      render_num_header, render_name_header, render_record_head,
      render_open_brace, render_close_brace, render_field_fullname,
      render_field_shortname, render_field_cname, render_field_package,
      render_field_unique_count, render_field_by_number_ref,
      render_field_value_count, render_field_by_name_ref,
      hnu, h, List.append_assoc,
      show ("" : String).data = [] from rfl,
      show SimpleItoa ((0 : Nat) : Int) = "0" from rfl,
      show SimpleItoa (0 : Int) = "0" from rfl]

/-- Witness for claim C2 at the concrete empty descriptor `dEmpty`. -/
theorem claim_C2_witness :
    dEmpty.values = [] ∧
      ((EnumGenerator.GenerateDefinition ⟨dEmpty, ""⟩ emptyPrinter).out =
        "typedef enum _" ++ FullNameToC dEmpty.fullName ++ " \x7b" ++
          "\n" ++ "\x7d " ++ FullNameToC dEmpty.fullName ++ ";" ++ "\n" ∧
      (EnumGenerator.GenerateEnumDescriptor ⟨dEmpty, ""⟩ emptyPrinter).out =
        "const ProtobufCEnumValue " ++ FullNameToLower dEmpty.fullName ++
          "_enum_values_by_number[" ++ "0" ++ "] =" ++ "\n" ++
          "\x7b" ++ "\n" ++ "\x7d;" ++ "\n" ++
          "const ProtobufCEnumValue " ++ FullNameToLower dEmpty.fullName ++
          "_enum_values_by_name[" ++ "0" ++ "] =" ++ "\n" ++
          "\x7b" ++ "\n" ++ "\x7d;" ++ "\n" ++
          "const ProtobufCEnumDescriptor " ++
          FullNameToLower dEmpty.fullName ++
          "__descriptor =" ++ "\n" ++ "\x7b" ++ "\n" ++
          "  \"" ++ dEmpty.fullName ++ "\"," ++ "\n" ++
          "  \"" ++ dEmpty.name ++ "\"," ++ "\n" ++
          "  \"" ++ FullNameToC dEmpty.fullName ++ "\"," ++ "\n" ++
          "  \"" ++ dEmpty.packageName ++ "\"," ++ "\n" ++
          "  " ++ "0" ++ "," ++ "\n" ++
          "  " ++ FullNameToLower dEmpty.fullName ++
          "_enum_values_by_number," ++ "\n" ++
          "  " ++ "0" ++ "," ++ "\n" ++
          "  " ++ FullNameToLower dEmpty.fullName ++
          "_enum_values_by_name" ++ "\n" ++ "\x7d;" ++ "\n" ∧
      nUniqueValues dEmpty = 0 ∧
      byNumberEmittedIndices dEmpty = [] ∧
      byNameEmittedIndices dEmpty = []) :=
  ⟨rfl, claim_C2_empty_input dEmpty "" rfl⟩

/-- Claim C5: the values-by-name table has exactly one entry per input value
(duplicated integers included), and adjacent entries are in non-decreasing
byte-wise lexicographic order of their symbolic names. -/
theorem claim_C5_by_name_table (d : EnumDescriptor) :
    (byNameEmittedIndices d).length = d.values.length ∧
      List.Chain'
        (fun i j => (d.values.getD i default).name ≤
          (d.values.getD j default).name)
        (byNameEmittedIndices d) := by
  constructor
  · rw [byNameEmittedIndices, List.length_map]
    exact nameIndexSorted_length d
  · have hp := nameIndexSorted_sorted d
    have hmem : ∀ x ∈ nameIndexSorted d,
        x.name = (d.values.getD x.index default).name := by
      intro x hx
      have hx2 : x ∈ nameIndexList d := by
        have := (nameIndexSorted_perm d).subset
        exact this hx
      obtain ⟨k, hk, hxk⟩ := (mem_nameIndexListAux 0 d.values).mp hx2
      subst hxk
      simp
    have hp2 : (nameIndexSorted d).Pairwise
        (fun a b => (d.values.getD a.index default).name ≤
          (d.values.getD b.index default).name) := by
      refine List.Pairwise.imp_of_mem ?_ hp
      intro a b ha hb hab
      rw [← hmem a ha, ← hmem b hb]
      exact hab
    have hp3 : (byNameEmittedIndices d).Pairwise
        (fun i j => (d.values.getD i default).name ≤
          (d.values.getD j default).name) := by
      rw [byNameEmittedIndices]
      exact List.pairwise_map.mpr hp2
    exact hp3.chain'

/-- Claim C9: for a non-empty descriptor the first entry emitted into the
values-by-number table is the value with the globally minimal integer
number, and among all values sharing that number it is the one with the
smallest declaration index. -/
theorem claim_C9_first_by_number_entry (d : EnumDescriptor)
    (h : d.values ≠ []) :
    ∃ i, (byNumberEmittedIndices d).head? = some i ∧
      i < d.values.length ∧
      ∀ j, j < d.values.length →
        ((d.values.getD i default).number <
            (d.values.getD j default).number ∨
          ((d.values.getD i default).number =
              (d.values.getD j default).number ∧ i ≤ j)) := by
  have hlenpos : 0 < d.values.length := List.length_pos.mpr h
  have hspec := (compactedValueIndex_spec d h).2
  have hbn : (byNumberEmittedIndices d).head? =
      some ((valueIndexSorted d).getD 0 default).index := by
    simp only [byNumberEmittedIndices]
    rw [if_pos hlenpos]
    simp only [List.head?_cons]
    rw [hspec]
  have hsne : valueIndexSorted d ≠ [] := by
    intro he
    apply h
    apply List.length_eq_zero.mp
    have hl := valueIndexSorted_length d
    rw [he] at hl
    simp only [List.length_nil] at hl
    omega
  obtain ⟨b, L, hbl⟩ := List.exists_cons_of_ne_nil hsne
  have hx0 : (valueIndexSorted d).getD 0 default = b := by
    rw [hbl]
    rfl
  have hsorted := valueIndexSorted_sorted d
  rw [hbl] at hsorted
  have hall : ∀ z ∈ L, valueLe b z := (List.pairwise_cons.mp hsorted).1
  have hbmem : b ∈ valueIndexList d := by
    have hm : b ∈ valueIndexSorted d := by
      rw [hbl]
      exact List.mem_cons_self b L
    exact (valueIndexSorted_perm d).subset hm
  obtain ⟨k, hk, hbk⟩ := (mem_valueIndexListAux 0 d.values).mp hbmem
  have hbindex : b.index = k := by rw [hbk]; simp
  have hbvalue : b.value = (d.values.getD k default).number := by
    rw [hbk]
  refine ⟨b.index, by rw [hbn, hx0], by omega, ?_⟩
  intro j hj
  have hvb : (d.values.getD b.index default).number = b.value := by
    rw [hbindex, hbvalue]
  have hjmem : (⟨(d.values.getD j default).number, j⟩ : ValueIndex) ∈
      valueIndexList d :=
    (mem_valueIndexListAux 0 d.values).mpr ⟨j, hj, by simp⟩
  have hjmem2 : (⟨(d.values.getD j default).number, j⟩ : ValueIndex) ∈
      b :: L := by
    rw [← hbl]
    exact ((valueIndexSorted_perm d).symm.subset) hjmem
  rcases List.mem_cons.mp hjmem2 with heq | hmem2
  · right
    have h1 : b.value = (d.values.getD j default).number := by
      rw [← heq]
    have h2 : b.index = j := by rw [← heq]
    rw [hvb, h1, h2]
    exact ⟨rfl, le_refl j⟩
  · have hle := hall _ hmem2
    rcases hle with hlt | ⟨heqv, hleidx⟩
    · left
      rw [hvb]
      exact hlt
    · right
      rw [hvb]
      exact ⟨heqv, hleidx⟩

/-- Witness for claim C9 at the concrete descriptor `dTwo`. -/
theorem claim_C9_witness :
    dTwo.values ≠ [] ∧
      (∃ i, (byNumberEmittedIndices dTwo).head? = some i ∧
        i < dTwo.values.length ∧
        ∀ j, j < dTwo.values.length →
          ((dTwo.values.getD i default).number <
              (dTwo.values.getD j default).number ∨
            ((dTwo.values.getD i default).number =
                (dTwo.values.getD j default).number ∧ i ≤ j))) :=
  ⟨by decide, claim_C9_first_by_number_entry dTwo (by decide)⟩

/-- Claim C1 (code bug evidence): at `dTriple` (values A=1, B=1, C=1, D=2)
the code declares the values-by-number table with `unique_value_count = 2`
(the correct distinct count), yet the emission loop — which rescans the
array mutated in place by the compaction pass — emits four entries, with
declaration indices 0, 3, 2, 3: duplicated values reappear and the integer
values are not strictly ascending, contradicting the claim. -/
theorem claim_C1_bug_eval :
    nUniqueValues dTriple = 2 ∧
      ((dTriple.values.map EnumValue.number).dedup).length = 2 ∧
      byNumberEmittedIndices dTriple = [0, 3, 2, 3] ∧
      (byNumberEmittedIndices dTriple).length = 4 := by
  exact ⟨by decide, by decide, by decide, by decide⟩
